import Mathlib

/-!
Verification development for the OCT-volume conversion scripts
(`convert_vol_to_tiff.py`, `convert_e2e_to_tiff.py`, `convert_fda_to_tiff.py`).

The raw `.vol` decoder (`read_vol_file`) is embedded over byte lists.
Bytes are `Fin 256`; Python byte-string slicing (`b[lo:hi]`, with clamping
and negative-index-from-the-end semantics) is `pySlice`; `struct.unpack`
of a little-endian 32-bit signed integer is `unpack_i`; `struct.unpack`
of little-endian IEEE-754 32-bit floats is `unpackFloats` built on
`decodeF32le`.  Float values are modelled exactly: the carrier `F32` has
exact rational finite values plus the IEEE special values `inf`, `negInf`
and `nan`, and the arithmetic and comparison operations used by the
script (`>=` against the sentinel, `min`, `max`, subtraction, division)
follow the IEEE special-value rules.  Finite arithmetic is exact
(rounding of in-range float64 arithmetic is not modelled).
-/

/-- A byte, as stored in a Python `bytes` object. -/
abbrev Byte := Fin 256

/-- Clamp one bound of a Python slice `b[lo:hi]` to `[0, len]`,
resolving negative indices from the end, as Python does. -/
def pyIdx (len : Nat) (i : Int) : Nat :=
  (max 0 (min (if i < 0 then (len : Int) + i else i) (len : Int))).toNat

/-- Python slicing `b[lo:hi]` on a list. -/
def pySlice {α : Type} (b : List α) (lo hi : Int) : List α :=
  (b.take (pyIdx b.length hi)).drop (pyIdx b.length lo)

/-- The little-endian unsigned value of a 4-byte string (0 if not 4 bytes). -/
def leWord : List Byte → Nat
  | [b0, b1, b2, b3] => b0.val + 256 * b1.val + 65536 * b2.val + 16777216 * b3.val
  | _ => 0

/-- `struct.unpack('i', s)`: little-endian 32-bit signed integer; fails
(raises `struct.error`) unless `s` is exactly 4 bytes. -/
def unpack_i (s : List Byte) : Option Int :=
  if s.length = 4 then
    some (if leWord s < 2 ^ 31 then (leWord s : Int) else (leWord s : Int) - 2 ^ 32)
  else none

/-- An IEEE-754 binary32 value as produced by `struct.unpack('f', ...)`,
with the finite values carried exactly as rationals. -/
inductive F32 where
  | finite (q : ℚ)
  | inf
  | negInf
  | nan
deriving DecidableEq, Repr

namespace F32

/-- The script's sentinel threshold `3.40e+38`.  No binary32 value lies
between the exact decimal `3.40e38` and the float64 nearest to it, so
comparing against the exact decimal is faithful. -/
def sentinel : ℚ := ((34 * 10 ^ 37 : ℕ) : ℚ)

/-- Elementwise `v >= q` against a finite threshold (`nan` compares false). -/
def geb : F32 → ℚ → Bool
  | finite v, q => decide (q ≤ v)
  | inf, _ => true
  | negInf, _ => false
  | nan, _ => false

/-- Elementwise `v < q` against a finite threshold (`nan` compares false). -/
def ltQ : F32 → ℚ → Bool
  | finite v, q => decide (v < q)
  | inf, _ => false
  | negInf, _ => true
  | nan, _ => false

def isNan : F32 → Bool
  | nan => true
  | _ => false

/-- IEEE `a < b` (false whenever either side is `nan`). -/
def ltb : F32 → F32 → Bool
  | nan, _ => false
  | _, nan => false
  | finite a, finite b => decide (a < b)
  | finite _, inf => true
  | finite _, negInf => false
  | negInf, negInf => false
  | negInf, _ => true
  | inf, _ => false

/-- Pairwise minimum as in `np.min`'s reduction: `nan` propagates. -/
def fmin (a b : F32) : F32 :=
  if isNan a || isNan b then nan else if ltb b a then b else a

/-- Pairwise maximum as in `np.max`'s reduction: `nan` propagates. -/
def fmax (a b : F32) : F32 :=
  if isNan a || isNan b then nan else if ltb a b then b else a

/-- IEEE subtraction on the modelled carrier (finite part exact). -/
def sub : F32 → F32 → F32
  | nan, _ => nan
  | _, nan => nan
  | finite a, finite b => finite (a - b)
  | finite _, inf => negInf
  | finite _, negInf => inf
  | inf, inf => nan
  | inf, _ => inf
  | negInf, negInf => nan
  | negInf, _ => negInf

/-- IEEE division on the modelled carrier (finite part exact; the sign of
zero is not modelled, a zero divisor counts as `+0.0`). -/
def div : F32 → F32 → F32
  | nan, _ => nan
  | _, nan => nan
  | finite a, finite b =>
      if b = 0 then (if a = 0 then nan else if 0 < a then inf else negInf)
      else finite (a / b)
  | finite _, inf => finite 0
  | finite _, negInf => finite 0
  | inf, finite b => if 0 ≤ b then inf else negInf
  | negInf, finite b => if 0 ≤ b then negInf else inf
  | inf, _ => nan
  | negInf, _ => nan

/-- Whether a value lies in `[0, 1]` (`nan` and infinities do not). -/
def inUnit : F32 → Bool
  | finite q => decide (0 ≤ q ∧ q ≤ 1)
  | _ => false

end F32

/-- Decode 4 bytes as a little-endian IEEE-754 binary32 value
(`struct.unpack('f', s)`); junk (`nan`) on a wrong-sized input, which
never occurs at use sites. -/
def decodeF32le (s : List Byte) : F32 :=
  match s with
  | [b0, b1, b2, b3] =>
    let u : Nat := b0.val + 256 * b1.val + 65536 * b2.val + 16777216 * b3.val
    let sign : Nat := u / 2 ^ 31
    let e : Nat := u / 2 ^ 23 % 256
    let m : Nat := u % 2 ^ 23
    if e = 255 then (if m = 0 then (if sign = 1 then F32.negInf else F32.inf) else F32.nan)
    else
      let mag : ℚ :=
        if e = 0 then ((m : ℕ) : ℚ) / ((2 ^ 149 : ℕ) : ℚ)
        else (((2 ^ 23 + m) * 2 ^ e : ℕ) : ℚ) / ((2 ^ 150 : ℕ) : ℚ)
      F32.finite (if sign = 1 then -mag else mag)
  | _ => F32.nan

/-- `struct.unpack('f' * count, s)`: fails unless `s` has exactly
`4 * count` bytes, else yields the `count` decoded floats in order. -/
def unpackFloats (count : Nat) (s : List Byte) : Option (List F32) :=
  if s.length = 4 * count then
    some ((List.range count).map (fun j => (s.drop (4 * j)).take 4 |> decodeF32le))
  else none

/-- The `.vol` header fields read by `read_vol_file` (all little-endian
32-bit signed integers at fixed offsets in the first 2048 bytes). -/
structure VolHeader where
  sizeX : Int
  numBscans : Int
  sizeZ : Int
  sizeXSlo : Int
  sizeYSlo : Int
  bscanHdrSize : Int
deriving DecidableEq, Repr

/-- Parse the header exactly as `read_vol_file` does: `Header =
rawfile.read(2048)` followed by six fixed-offset `struct.unpack('i', ...)`
calls on `Header[12:16]`, `[16:20]`, `[20:24]`, `[48:52]`, `[52:56]`,
`[100:104]`.  (`rawfile.read(2048)` returns at most 2048 bytes; slicing a
short buffer clamps, and `unpack` then fails, so the only failure mode is
a field slice that is not exactly 4 bytes.) -/
def headerParse (f : List Byte) : Option VolHeader := do
  let hdr := f.take 2048
  let sizeX ← unpack_i (pySlice hdr 12 16)
  let numBscans ← unpack_i (pySlice hdr 16 20)
  let sizeZ ← unpack_i (pySlice hdr 20 24)
  let sizeXSlo ← unpack_i (pySlice hdr 48 52)
  let sizeYSlo ← unpack_i (pySlice hdr 52 56)
  let bscanHdrSize ← unpack_i (pySlice hdr 100 104)
  pure ⟨sizeX, numBscans, sizeZ, sizeXSlo, sizeYSlo, bscanHdrSize⟩

/-- `SloImageSize = SizeXSlo * SizeYSlo`; data region starts at
`2048 + SloImageSize`. -/
def dataStart (h : VolHeader) : Int := 2048 + h.sizeXSlo * h.sizeYSlo

/-- `BsBlkSize = BscanHdrSize + SizeX * SizeZ * 4`. -/
def bsBlkSize (h : VolHeader) : Int := h.bscanHdrSize + h.sizeX * h.sizeZ * 4

/-- `rawfile.seek(off); rawfile.read(n)`: a negative offset raises
(`ValueError`); reading past EOF truncates; a negative `n` reads to EOF. -/
def seekRead (f : List Byte) (off n : Int) : Option (List Byte) :=
  if off < 0 then none
  else some (if n < 0 then f.drop off.toNat else (f.drop off.toNat).take n.toNat)

/-- A decoded volume: `numBscans` B-scans, each `sizeZ` rows of `sizeX`. -/
abbrev Vol := List (List (List F32))

def volGet (v : Vol) (i z x : Nat) : Option F32 :=
  ((v.get? i).bind (fun p => p.get? z)).bind (fun r => r.get? x)

def vmap3 (g : F32 → F32) (v : Vol) : Vol :=
  v.map (fun p => p.map (fun r => r.map g))

/-- `np.ones([NumBscans, SizeZ, SizeX]) * -1.0`: fails (`ValueError`) on a
negative dimension. -/
def ones3 (n z x : Int) : Option Vol :=
  if n < 0 ∨ z < 0 ∨ x < 0 then none
  else some (List.replicate n.toNat (List.replicate z.toNat (List.replicate x.toNat (F32.finite (-1)))))

/-- `np.reshape` of `z*x` values to `(z, x)`, row-major. -/
def reshape2 (z x : Nat) (l : List F32) : List (List F32) :=
  (List.range z).map (fun r => (l.drop (r * x)).take x)

/-- One iteration of the slice loop: seek to
`2048 + SloImageSize + i * BsBlkSize`, read `BsBlkSize` bytes, slice off
the payload `Bscan[BscanHdrSize : SizeX*SizeZ*4 + BscanHdrSize]`, unpack
`SizeZ*SizeX` floats, reshape to `(SizeZ, SizeX)`. -/
def readSliceBlock (f : List Byte) (h : VolHeader) (i : Nat) : Option (List (List F32)) := do
  let bscan ← seekRead f (dataStart h + i * bsBlkSize h) (bsBlkSize h)
  let payload := pySlice bscan h.bscanHdrSize (h.sizeX * h.sizeZ * 4 + h.bscanHdrSize)
  let floats ← unpackFloats (h.sizeZ.toNat * h.sizeX.toNat) payload
  pure (reshape2 h.sizeZ.toNat h.sizeX.toNat floats)

/-- Lines 43-49 of `convert_vol_to_tiff.py`: the `-1.0`-prefilled buffer
and the loop storing slice `i`'s reshaped payload as row `i`. -/
def assembleLoop (f : List Byte) (h : VolHeader) : Option Vol := do
  let init ← ones3 h.numBscans h.sizeZ h.sizeX
  (List.range h.numBscans.toNat).foldlM
    (fun v i => do
      let s ← readSliceBlock f h i
      pure (v.set i s))
    init

/-- Everything `read_vol_file` does before `rawfile.close()`: header
parse, first-block read, segmentation-count parse (`NumSeg`, decoded then
never used), buffer allocation, slice loop. -/
def preClose (f : List Byte) : Option Vol := do
  let h ← headerParse f
  let bscan0 ← seekRead f (dataStart h) (bsBlkSize h)
  let _numSeg ← unpack_i (pySlice (pySlice bscan0 0 h.bscanHdrSize) 48 52)
  assembleLoop f h

/-- `BscanVol[BscanVol >= 3.40e+38] = 0.0` (line 53). -/
def cleanup (v : Vol) : Vol :=
  vmap3 (fun e => if F32.geb e F32.sentinel then F32.finite 0 else e) v

def flat3 (v : Vol) : List F32 := (v.map (fun p => p.flatten)).flatten

/-- `np.min` over the whole volume; `ValueError` on a zero-size array. -/
def minV (v : Vol) : Option F32 :=
  match flat3 v with
  | [] => none
  | a :: l => some (l.foldl F32.fmin a)

/-- `np.max` over the whole volume; `ValueError` on a zero-size array. -/
def maxV (v : Vol) : Option F32 :=
  match flat3 v with
  | [] => none
  | a :: l => some (l.foldl F32.fmax a)

/-- Lines 55-58: global min/max, then
`(BscanVol - min_val) / (max_val - min_val)` only if `max_val > min_val`. -/
def statsNormalize (v : Vol) : Option Vol :=
  match minV v, maxV v with
  | some m, some M =>
      some (if F32.ltb m M then vmap3 (fun e => F32.div (F32.sub e m) (F32.sub M m)) v else v)
  | _, _ => none

/-- `read_vol_file`, instrumented with whether `rawfile.close()` (line 51)
was reached: the close sits between the slice loop and the sentinel
cleanup / statistics, and there is no `try`/`finally`, so a failure
before line 51 leaves the file object unclosed. -/
def read_vol_file_c (f : List Byte) : Option Vol × Bool :=
  match preClose f with
  | none => (none, false)
  | some vol => (statsNormalize (cleanup vol), true)

/-- `read_vol_file` of `convert_vol_to_tiff.py`: `none` models any raised
exception (all are caught uniformly by the batch driver). -/
def read_vol_file (f : List Byte) : Option Vol := (read_vol_file_c f).1

/-!
Contrast transform (`log_volume`, shared verbatim by all three scripts)

Arrays are modelled as shape plus row-major (C-order) data; the element
type is `ℝ` and `np.sqrt` is idealised as `Real.sqrt` (exact, no
rounding; `np.sqrt` of a negative gives `nan` where `Real.sqrt` gives
junk `0`, but no claim is made about negative inputs).
-/

/-- A numpy ndarray: shape and row-major data (`data.length = shape.prod`
for well-formed arrays). -/
structure NDArr where
  shape : List Nat
  data : List ℝ

/-- `image_np[..., 0]`: channel 0 of the last axis, in C-order.  Raises
(`IndexError`) when the last axis is empty. -/
noncomputable def chanSel (a : NDArr) : Option NDArr :=
  let lastDim := a.shape.getLastD 0
  if lastDim = 0 then none
  else some ⟨a.shape.dropLast,
    (List.range a.shape.dropLast.prod).map (fun k => a.data.getD (k * lastDim) 0)⟩

/-- `log_volume`: drop to channel 0 when there are more than 3 axes, then
elementwise `np.sqrt(np.sqrt(x))`. -/
noncomputable def log_volume (a : NDArr) : Option NDArr := do
  let b ← if 3 < a.shape.length then chanSel a else pure a
  pure ⟨b.shape, b.data.map (fun x => Real.sqrt (Real.sqrt x))⟩

/-- The data `log_volume` keeps before the elementwise remapping (the
whole buffer, or channel 0 of the last axis when there are more than 3
axes). -/
noncomputable def chanData (a : NDArr) : List ℝ :=
  if 3 < a.shape.length then
    (List.range a.shape.dropLast.prod).map (fun k => a.data.getD (k * (a.shape.getLastD 0)) 0)
  else a.data

/-!
Batch drivers

Paths are modelled as component lists (`os.path.join p c = p ++ [c]`).
`os.walk` is a parameter: the list of `(root, files)` pairs it yields,
every root extending the input directory.  The external writer
(`io.imsave` / `tiff.imwrite`, applied after the total `astype` and
`log_volume` steps) is a boolean-returning parameter `save`; the external
`E2E`/`FDA` readers are parameters (`readerInit` models the constructor,
which the e2e/fda scripts call OUTSIDE their `try` block, and
`num_slices`/`read_slice` model the slice interface used INSIDE it).
-/

/-- `os.path.splitext(file)[0]`: strip the extension after the last dot,
unless everything before that dot is dots. -/
def lastDotAux : List Char → Nat → Option Nat → Option Nat
  | [], _, acc => acc
  | c :: cs, i, acc => lastDotAux cs (i + 1) (if c = '.' then some i else acc)

def stripExt (s : String) : String :=
  match lastDotAux s.data 0 none with
  | none => s
  | some i => if (s.data.take i).any (fun c => c ≠ '.') then String.mk (s.data.take i) else s

/-- Component-prefix test, used to model `os.path.relpath` for the only
case the scripts hit (a walk root below the input root). -/
def isPre : List String → List String → Bool
  | [], _ => true
  | _ :: _, [] => false
  | a :: as, b :: bs => a = b && isPre as bs

/-- `os.path.relpath(root, input_dir)` for a root extending the input
directory (the only case `os.walk` produces); other inputs are returned
unchanged (unreachable in the drivers). -/
def pyRelpath (p start : List String) : List String :=
  if isPre start p then p.drop start.length else p

/-- The `.vol` driver's output paths: `(output_subdir, tiff_filepath)` =
(`os.makedirs` argument, `imsave` argument). -/
def vol_output_path (inp out root : List String) (file : String) : List String × List String :=
  let sub := out ++ pyRelpath root inp
  (sub, sub ++ [stripExt file ++ ".tiff"])

/-- The e2e/fda drivers' output paths: an extra per-file folder named
after the base name is created, and the tiff goes inside it. -/
def e2e_output_path (inp out root : List String) (file : String) : List String × List String :=
  let sub := out ++ pyRelpath root inp
  let folder := sub ++ [stripExt file]
  (folder, folder ++ [stripExt file ++ ".tiff"])

/-- What the batch drivers report per attempted file: the saved tiff path
or the offending input path of a caught failure. -/
inductive Outcome where
  | ok (tiff : List String)
  | failed (path : List String)
deriving DecidableEq, Repr

/-- The body of the `.vol` driver's `try` block for one file (decode,
mirror path, transform+write via `save`); any failure is caught there. -/
def volFileStep (fs : List String → List Byte) (save : List String → Vol → Bool)
    (inp out root : List String) (file : String) : Outcome :=
  let path := root ++ [file]
  match read_vol_file (fs path) with
  | none => Outcome.failed path
  | some vol =>
      if save (vol_output_path inp out root file).2 vol then
        Outcome.ok (vol_output_path inp out root file).2
      else Outcome.failed path

/-- The inner file loop of `process_vol_files`: every `.vol` file gets a
`try`/`except`-isolated step, so the loop is total. -/
def volFilesLoop (fs : List String → List Byte) (save : List String → Vol → Bool)
    (inp out root : List String) : List String → List Outcome
  | [] => []
  | file :: rest =>
      if file.endsWith ".vol" then
        volFileStep fs save inp out root file :: volFilesLoop fs save inp out root rest
      else volFilesLoop fs save inp out root rest

/-- `process_vol_files` over the `os.walk` listing. -/
def process_vol_files (fs : List String → List Byte) (save : List String → Vol → Bool)
    (inp out : List String) : List (List String × List String) → List Outcome
  | [] => []
  | entry :: rest =>
      volFilesLoop fs save inp out entry.1 entry.2 ++ process_vol_files fs save inp out rest

/-- The slice interface of the external reader object used inside the
e2e/fda `try` blocks. -/
structure OctReader (σ : Type) where
  num_slices : Nat
  read_slice : Nat → Option σ

/-- `for slice_idx in range(img.num_slices): img.read_slice(slice_idx)`. -/
def readAllSlices {σ : Type} (r : OctReader σ) : Option (List σ) :=
  (List.range r.num_slices).mapM r.read_slice

/-- The body of the e2e/fda drivers' `try` block for one file: read all
slices, `np.stack` them (the parameter `stackF`, failing e.g. on an empty
or ragged list), transform+write via `save`. -/
def e2eFileStep {σ τ : Type} (stackF : List σ → Option τ) (save : List String → τ → Bool)
    (inp out root : List String) (file : String) (img : OctReader σ) : Outcome :=
  let path := root ++ [file]
  match (readAllSlices img).bind stackF with
  | none => Outcome.failed path
  | some vol =>
      if save (e2e_output_path inp out root file).2 vol then
        Outcome.ok (e2e_output_path inp out root file).2
      else Outcome.failed path

/-- The inner file loop of `process_e2e_files`.  `img = E2E(filepath)` is
executed BEFORE the `try` block, so a failure of the reader constructor
propagates out of the loop (`Except.error`, carrying the path) instead of
being caught. -/
def e2eFilesLoop {σ τ : Type} (readerInit : List String → Except Unit (OctReader σ))
    (stackF : List σ → Option τ) (save : List String → τ → Bool)
    (inp out root : List String) : List String → Except (List String) (List Outcome)
  | [] => Except.ok []
  | file :: rest =>
      if file.endsWith ".e2e" then
        match readerInit (root ++ [file]) with
        | Except.error _ => Except.error (root ++ [file])
        | Except.ok img => do
            let outs ← e2eFilesLoop readerInit stackF save inp out root rest
            pure (e2eFileStep stackF save inp out root file img :: outs)
      else e2eFilesLoop readerInit stackF save inp out root rest

/-- `process_e2e_files` over the `os.walk` listing; an uncaught
constructor failure aborts the whole batch. -/
def process_e2e_files {σ τ : Type} (readerInit : List String → Except Unit (OctReader σ))
    (stackF : List σ → Option τ) (save : List String → τ → Bool)
    (inp out : List String) : List (List String × List String) → Except (List String) (List Outcome)
  | [] => Except.ok []
  | entry :: rest => do
      let outs ← e2eFilesLoop readerInit stackF save inp out entry.1 entry.2
      let more ← process_e2e_files readerInit stackF save inp out rest
      pure (outs ++ more)

/-- The inner file loop of `process_fda_files` (identical to the e2e one
except for the extension, including the constructor outside `try`). -/
def fdaFilesLoop {σ τ : Type} (readerInit : List String → Except Unit (OctReader σ))
    (stackF : List σ → Option τ) (save : List String → τ → Bool)
    (inp out root : List String) : List String → Except (List String) (List Outcome)
  | [] => Except.ok []
  | file :: rest =>
      if file.endsWith ".fda" then
        match readerInit (root ++ [file]) with
        | Except.error _ => Except.error (root ++ [file])
        | Except.ok img => do
            let outs ← fdaFilesLoop readerInit stackF save inp out root rest
            pure (e2eFileStep stackF save inp out root file img :: outs)
      else fdaFilesLoop readerInit stackF save inp out root rest

/-- `process_fda_files` over the `os.walk` listing. -/
def process_fda_files {σ τ : Type} (readerInit : List String → Except Unit (OctReader σ))
    (stackF : List σ → Option τ) (save : List String → τ → Bool)
    (inp out : List String) : List (List String × List String) → Except (List String) (List Outcome)
  | [] => Except.ok []
  | entry :: rest => do
      let outs ← fdaFilesLoop readerInit stackF save inp out entry.1 entry.2
      let more ← process_fda_files readerInit stackF save inp out rest
      pure (outs ++ more)

/-- Number of files in a walk listing with the given extension. -/
def matchedCount (ext : String) (walk : List (List String × List String)) : Nat :=
  (walk.map (fun e => (e.2.filter (fun f => f.endsWith ext)).length)).sum

/-!
Concrete inputs for witnesses and counterexamples
-/

def byte (n : Nat) : Byte := (n : Fin 256)

/-- The 4 little-endian bytes of a 32-bit value. -/
def b4 (n : Nat) : List Byte :=
  [byte (n % 256), byte (n / 256 % 256), byte (n / 65536 % 256), byte (n / 16777216 % 256)]

/-- A minimal 160-byte `.vol` file that `read_vol_file` decodes fully:
`sizeX = numBscans = sizeZ = 1`, `bscanHeaderSize = 52`, one record whose
payload is the single float `1.0f` (bytes `00 00 80 3F` little-endian).
The declared slo size is negative (`sizeXSlo = -1944, sizeYSlo = 1`), so
the data region starts at byte `2048 - 1944 = 104` and the whole file fits
in 160 bytes — the script performs no validation that would reject this. -/
def tinyGood : List Byte :=
  List.replicate 12 (byte 0) ++ b4 1 ++ b4 1 ++ b4 1 ++
    List.replicate 24 (byte 0) ++ b4 (2 ^ 32 - 1944) ++ b4 1 ++
    List.replicate 44 (byte 0) ++ b4 52 ++
    List.replicate 52 (byte 0) ++ [byte 0, byte 0, byte 128, byte 63]

def tinyHeader : VolHeader := ⟨1, 1, 1, -1944, 1, 52⟩

/-- `tinyGood` with only the first record's segmentation-count field
changed (byte 152, i.e. offset 48 of the slice header at 104). -/
def tinySeg : List Byte := tinyGood.set 152 (byte 7)

/-- A 104-byte all-zero buffer: long enough for every header field slice,
far shorter than the 2048-byte fixed header. -/
def shortFile : List Byte := List.replicate 104 (byte 0)

/-- The spec-side description of a header field: the little-endian 32-bit
signed integer formed by the bytes at offsets `k .. k+3` of the buffer. -/
def leI32 (f : List Byte) (k : Nat) : Int :=
  let u : Nat := (f.getD k 0).val + 256 * (f.getD (k + 1) 0).val +
    65536 * (f.getD (k + 2) 0).val + 16777216 * (f.getD (k + 3) 0).val
  if u < 2 ^ 31 then (u : Int) else (u : Int) - 2 ^ 32

/-- Whether every element of a volume is a finite float (no `±inf`, no
`nan`). -/
def allFinite (v : Vol) : Bool :=
  (flat3 v).all (fun e => match e with | F32.finite _ => true | _ => false)

/-- The slice layout the spec describes for record `i`: element `(z, x)`
is the little-endian float32 at byte offset
`dataStart + i*bscanBlockSize + bscanHeaderSize + 4*(z*sizeX + x)`,
i.e. the `sizeX*sizeZ` payload floats reshaped row-major to
`[sizeZ, sizeX]`. -/
def sliceMat (f : List Byte) (h : VolHeader) (i : Nat) : List (List F32) :=
  (List.range h.sizeZ.toNat).map (fun z =>
    (List.range h.sizeX.toNat).map (fun x =>
      decodeF32le ((f.drop ((dataStart h).toNat + i * (bsBlkSize h).toNat +
        h.bscanHdrSize.toNat + 4 * (z * h.sizeX.toNat + x))).take 4)))

/-!
Helper lemmas: Python slicing
-/

theorem pyIdx_natCast (len n : Nat) : pyIdx len (n : Int) = min n len := by
  simp only [pyIdx]
  omega

theorem pyIdx_le_len (len : Nat) (i : Int) : pyIdx len i ≤ len := by
  simp only [pyIdx]
  omega

theorem pySlice_length {α : Type} (b : List α) (lo hi : Int) :
    (pySlice b lo hi).length = pyIdx b.length hi - pyIdx b.length lo := by
  have := pyIdx_le_len b.length hi
  simp only [pySlice, List.length_drop, List.length_take]
  omega

theorem get?_take_ext {α : Type} (l : List α) (n j : Nat) :
    (l.take n).get? j = if j < n then l.get? j else none := by
  by_cases h : j < n
  · rw [List.get?_take h, if_pos h]
  · rw [if_neg h]
    exact List.get?_len_le (le_trans (le_trans (List.length_take_le n l) (le_of_not_lt h)) (le_refl j))

theorem take_drop_four (l : List Byte) (a : Nat) (h : a + 4 ≤ l.length) :
    (l.take (a + 4)).drop a =
      [l.getD a 0, l.getD (a + 1) 0, l.getD (a + 2) 0, l.getD (a + 3) 0] := by
  induction a generalizing l with
  | zero =>
    match l, h with
    | b0 :: b1 :: b2 :: b3 :: rest, _ => simp [List.getD]
  | succ a ih =>
    match l, h with
    | b :: t, h =>
      have harith : a + 1 + 4 = (a + 4) + 1 := by omega
      have ht : a + 4 ≤ t.length := by simpa using h
      rw [harith]
      simpa [List.getD_cons_succ] using ih t ht

theorem unpack_header_field (f : List Byte) (a : Nat) (lo hi : Int)
    (hlo : lo = (a : Int)) (hhi : hi = ((a + 4 : Nat) : Int))
    (ha : a + 4 ≤ 2048) (h : a + 4 ≤ f.length) :
    unpack_i (pySlice (f.take 2048) lo hi) = some (leI32 f a) := by
  subst hlo hhi
  have hL : (f.take 2048).length = min 2048 f.length := List.length_take 2048 f
  have h1 : pyIdx (f.take 2048).length (a : Int) = a := by
    rw [hL, pyIdx_natCast]; omega
  have h2 : pyIdx (f.take 2048).length ((a + 4 : Nat) : Int) = a + 4 := by
    rw [hL, pyIdx_natCast]; omega
  have hslice : pySlice (f.take 2048) (a : Int) ((a + 4 : Nat) : Int) =
      [f.getD a 0, f.getD (a + 1) 0, f.getD (a + 2) 0, f.getD (a + 3) 0] := by
    rw [pySlice, h1, h2, List.take_take, min_eq_left ha, take_drop_four f a h]
  rw [hslice]
  simp [unpack_i, leWord, leI32]

theorem headerParse_of_long (f : List Byte) (h104 : 104 ≤ f.length) :
    headerParse f =
      some ⟨leI32 f 12, leI32 f 16, leI32 f 20, leI32 f 48, leI32 f 52, leI32 f 100⟩ := by
  have e1 := unpack_header_field f 12 12 16 (by norm_num) (by norm_num) (by norm_num) (by omega)
  have e2 := unpack_header_field f 16 16 20 (by norm_num) (by norm_num) (by norm_num) (by omega)
  have e3 := unpack_header_field f 20 20 24 (by norm_num) (by norm_num) (by norm_num) (by omega)
  have e4 := unpack_header_field f 48 48 52 (by norm_num) (by norm_num) (by norm_num) (by omega)
  have e5 := unpack_header_field f 52 52 56 (by norm_num) (by norm_num) (by norm_num) (by omega)
  have e6 := unpack_header_field f 100 100 104 (by norm_num) (by norm_num) (by norm_num) (by omega)
  simp [headerParse, e1, e2, e3, e4, e5, e6]

theorem headerParse_none_of_short (f : List Byte) (hlt : f.length < 104) :
    headerParse f = none := by
  have hL : (f.take 2048).length = f.length := by
    rw [List.length_take]; omega
  have h100 : unpack_i (pySlice (f.take 2048) 100 104) = none := by
    have hlen : (pySlice (f.take 2048) 100 104).length ≠ 4 := by
      rw [pySlice_length, hL]
      have ha : pyIdx f.length (100 : Int) = min 100 f.length := by
        have := pyIdx_natCast f.length 100
        simpa using this
      have hb : pyIdx f.length (104 : Int) = min 104 f.length := by
        have := pyIdx_natCast f.length 104
        simpa using this
      rw [ha, hb]
      omega
    simp [unpack_i, hlen]
  rcases h12 : unpack_i (pySlice (f.take 2048) 12 16) with _ | a12
  · simp [headerParse, h12]
  rcases h16 : unpack_i (pySlice (f.take 2048) 16 20) with _ | a16
  · simp [headerParse, h12, h16]
  rcases h20 : unpack_i (pySlice (f.take 2048) 20 24) with _ | a20
  · simp [headerParse, h12, h16, h20]
  rcases h48 : unpack_i (pySlice (f.take 2048) 48 52) with _ | a48
  · simp [headerParse, h12, h16, h20, h48]
  rcases h52 : unpack_i (pySlice (f.take 2048) 52 56) with _ | a52
  · simp [headerParse, h12, h16, h20, h48, h52]
  simp [headerParse, h12, h16, h20, h48, h52, h100]

/-!
Claim C2 — header parsing on buffers of length at least 2048
-/

/-- Claim C2: for every byte buffer of length at least 2048, header
parsing is deterministic (it is a pure function) and total, and returns
the little-endian 32-bit signed integers at byte offsets 12 (sizeX),
16 (numBscans), 20 (sizeZ), 48 (sizeXSlo), 52 (sizeYSlo) and
100 (bscanHeaderSize). -/
theorem c2_headerParse_total (f : List Byte) (h : 2048 ≤ f.length) :
    headerParse f =
      some ⟨leI32 f 12, leI32 f 16, leI32 f 20, leI32 f 48, leI32 f 52, leI32 f 100⟩ :=
  headerParse_of_long f (by omega)

/-- Witness for C2 at a concrete 2048-byte buffer. -/
theorem c2_witness :
    headerParse (List.replicate 2048 (byte 0)) =
      some ⟨leI32 (List.replicate 2048 (byte 0)) 12, leI32 (List.replicate 2048 (byte 0)) 16,
        leI32 (List.replicate 2048 (byte 0)) 20, leI32 (List.replicate 2048 (byte 0)) 48,
        leI32 (List.replicate 2048 (byte 0)) 52, leI32 (List.replicate 2048 (byte 0)) 100⟩ :=
  c2_headerParse_total (List.replicate 2048 (byte 0))
    (by rw [List.length_replicate])

/-!
Claim C6 — header-parse failure conditions
-/

/-- Counterexample to claim C6: `shortFile` is a 104-byte buffer (shorter
than 2048 bytes) whose derived geometry values are all zero (hence
non-positive), yet header parsing succeeds — the code performs no length
or positivity validation, so no `MalformedHeader`-style failure occurs. -/
theorem c6_cex :
    shortFile.length < 2048 ∧ headerParse shortFile = some ⟨0, 0, 0, 0, 0, 0⟩ :=
  ⟨by decide, by decide⟩

/-- Claim C6 (amended): header parsing fails exactly when the input is
shorter than 104 bytes (so that some 4-byte field slice is incomplete);
no validation of the derived geometry is performed at parse time.  In
particular, on inputs of length at least 2048 parsing always succeeds. -/
theorem c6_amended (f : List Byte) : headerParse f = none ↔ f.length < 104 := by
  constructor
  · intro hnone
    by_contra hge
    push_neg at hge
    rw [headerParse_of_long f hge] at hnone
    cases hnone
  · exact headerParse_none_of_short f

/-!
Claim C3 — sentinel cleanup
-/

theorem volGet_vmap3 (g : F32 → F32) (v : Vol) (i z x : Nat) :
    volGet (vmap3 g v) i z x = (volGet v i z x).map g := by
  simp only [volGet, vmap3, List.get?_map]
  cases v.get? i with
  | none => rfl
  | some p =>
    simp only [List.get?_map, Option.map_some', Option.some_bind]
    cases p.get? z with
    | none => rfl
    | some r =>
      simp only [List.get?_map, Option.map_some', Option.some_bind]

theorem ltQ_imp_not_geb (e : F32) (q : ℚ) (h : F32.ltQ e q = true) :
    F32.geb e q = false := by
  cases e <;> simp [F32.ltQ, F32.geb] at h ⊢
  exact h

/-- Claim C3: in the cleanup step, every element whose value is `>=
3.40e38` (including `+inf`) becomes exactly `0.0`, and every element
strictly below the threshold is left unchanged.  That the cleanup runs
before the min/max statistics is visible in `read_vol_file_c`, whose
post-close stage is `statsNormalize (cleanup vol)`. -/
theorem c3_sentinel_cleanup (v : Vol) (i z x : Nat) (e : F32)
    (he : volGet v i z x = some e) :
    (F32.geb e F32.sentinel = true → volGet (cleanup v) i z x = some (F32.finite 0)) ∧
    (F32.ltQ e F32.sentinel = true → volGet (cleanup v) i z x = some e) := by
  constructor
  · intro hge
    rw [cleanup, volGet_vmap3, he]
    simp [hge]
  · intro hlt
    rw [cleanup, volGet_vmap3, he]
    simp [ltQ_imp_not_geb e F32.sentinel hlt]

/-- Witness for C3 at a concrete one-element volume holding `0.0`. -/
theorem c3_witness :
    (F32.geb (F32.finite 0) F32.sentinel = true →
      volGet (cleanup [[[F32.finite 0]]]) 0 0 0 = some (F32.finite 0)) ∧
    (F32.ltQ (F32.finite 0) F32.sentinel = true →
      volGet (cleanup [[[F32.finite 0]]]) 0 0 0 = some (F32.finite 0)) :=
  c3_sentinel_cleanup [[[F32.finite 0]]] 0 0 0 (F32.finite 0) rfl

/-!
Claim C4 — min-max normalization
-/

theorem fmin_fold_finite (l : List F32) (a : ℚ)
    (hl : ∀ e ∈ l, ∃ q, e = F32.finite q) :
    ∃ qm, l.foldl F32.fmin (F32.finite a) = F32.finite qm ∧ qm ≤ a ∧
      ∀ q, F32.finite q ∈ l → qm ≤ q := by
  induction l generalizing a with
  | nil => exact ⟨a, rfl, le_refl a, by simp⟩
  | cons e t ih =>
    obtain ⟨q, rfl⟩ := hl e (by simp)
    have step : F32.fmin (F32.finite a) (F32.finite q) =
        F32.finite (if q < a then q else a) := by
      by_cases hqa : q < a <;> simp [F32.fmin, F32.isNan, F32.ltb, hqa]
    obtain ⟨qm, heq, hle, hmem⟩ :=
      ih (if q < a then q else a) (fun e he => hl e (by simp [he]))
    refine ⟨qm, ?_, ?_, ?_⟩
    · rw [List.foldl_cons, step, heq]
    · exact le_trans hle (by split <;> [exact le_of_lt (by assumption); exact le_refl a])
    · intro q' hq'
      rcases List.mem_cons.mp hq' with hhead | htail
      · have : q' = q := by injection hhead
        subst this
        refine le_trans hle ?_
        split
        · exact le_refl q'
        · exact le_of_not_lt (by assumption)
      · exact hmem q' htail

theorem fmax_fold_finite (l : List F32) (a : ℚ)
    (hl : ∀ e ∈ l, ∃ q, e = F32.finite q) :
    ∃ qM, l.foldl F32.fmax (F32.finite a) = F32.finite qM ∧ a ≤ qM ∧
      ∀ q, F32.finite q ∈ l → q ≤ qM := by
  induction l generalizing a with
  | nil => exact ⟨a, rfl, le_refl a, by simp⟩
  | cons e t ih =>
    obtain ⟨q, rfl⟩ := hl e (by simp)
    have step : F32.fmax (F32.finite a) (F32.finite q) =
        F32.finite (if a < q then q else a) := by
      by_cases hqa : a < q <;> simp [F32.fmax, F32.isNan, F32.ltb, hqa]
    obtain ⟨qM, heq, hle, hmem⟩ :=
      ih (if a < q then q else a) (fun e he => hl e (by simp [he]))
    refine ⟨qM, ?_, ?_, ?_⟩
    · rw [List.foldl_cons, step, heq]
    · refine le_trans ?_ hle
      split
      · exact le_of_lt (by assumption)
      · exact le_refl a
    · intro q' hq'
      rcases List.mem_cons.mp hq' with hhead | htail
      · have : q' = q := by injection hhead
        subst this
        refine le_trans ?_ hle
        split
        · exact le_refl q'
        · exact le_of_not_lt (by assumption)
      · exact hmem q' htail

theorem allFinite_mem (v : Vol) (hv : allFinite v = true) (e : F32) (he : e ∈ flat3 v) :
    ∃ q, e = F32.finite q := by
  rw [allFinite, List.all_eq_true] at hv
  have := hv e he
  cases e with
  | finite q => exact ⟨q, rfl⟩
  | inf => simp at this
  | negInf => simp at this
  | nan => simp at this

theorem minV_allFinite (v : Vol) (m : F32) (hv : allFinite v = true)
    (hm : minV v = some m) :
    ∃ qm, m = F32.finite qm ∧ ∀ q, F32.finite q ∈ flat3 v → qm ≤ q := by
  rw [minV] at hm
  rcases hfl : flat3 v with _ | ⟨a, t⟩
  · rw [hfl] at hm; cases hm
  · rw [hfl] at hm
    obtain ⟨qa, rfl⟩ := allFinite_mem v hv a (by rw [hfl]; simp)
    obtain ⟨qm, heq, hle, hmem⟩ := fmin_fold_finite t qa
      (fun e he => allFinite_mem v hv e (by rw [hfl]; simp [he]))
    have hm' : List.foldl F32.fmin (F32.finite qa) t = m := by simpa using hm
    refine ⟨qm, hm'.symm.trans heq, ?_⟩
    · intro q hq
      rcases List.mem_cons.mp hq with hhead | htail
      · have : q = qa := by injection hhead
        subst this; exact hle
      · exact hmem q htail

theorem maxV_allFinite (v : Vol) (M : F32) (hv : allFinite v = true)
    (hM : maxV v = some M) :
    ∃ qM, M = F32.finite qM ∧ ∀ q, F32.finite q ∈ flat3 v → q ≤ qM := by
  rw [maxV] at hM
  rcases hfl : flat3 v with _ | ⟨a, t⟩
  · rw [hfl] at hM; cases hM
  · rw [hfl] at hM
    obtain ⟨qa, rfl⟩ := allFinite_mem v hv a (by rw [hfl]; simp)
    obtain ⟨qM, heq, hle, hmem⟩ := fmax_fold_finite t qa
      (fun e he => allFinite_mem v hv e (by rw [hfl]; simp [he]))
    have hM' : List.foldl F32.fmax (F32.finite qa) t = M := by simpa using hM
    refine ⟨qM, hM'.symm.trans heq, ?_⟩
    · intro q hq
      rcases List.mem_cons.mp hq with hhead | htail
      · have : q = qa := by injection hhead
        subst this; exact hle
      · exact hmem q htail

theorem volGet_mem_flat3 (v : Vol) (i z x : Nat) (e : F32)
    (he : volGet v i z x = some e) : e ∈ flat3 v := by
  simp only [volGet] at he
  rcases hv : v.get? i with _ | p
  · rw [hv] at he; cases he
  rw [hv] at he
  simp only [Option.some_bind] at he
  rcases hp : p.get? z with _ | r
  · rw [hp] at he; cases he
  rw [hp] at he
  simp only [Option.some_bind] at he
  have her : e ∈ r := List.get?_mem he
  have hrp : r ∈ p := List.get?_mem hp
  have hpv : p ∈ v := List.get?_mem hv
  rw [flat3]
  exact List.mem_flatten.mpr ⟨p.flatten, List.mem_map.mpr ⟨p, hpv, rfl⟩,
    List.mem_flatten.mpr ⟨r, hrp, her⟩⟩

/-- Claim C4 (amended): with global minimum `m` and maximum `M`, if
`M > m` every element `v` is replaced by `(v - m) / (M - m)`, and —
provided every element of the volume is finite — every output element
lies in `[0, 1]`; if `M > m` fails to hold (in particular when `M = m`)
the volume is returned unchanged.  (The finiteness proviso is forced by
the counterexample `c4_cex`: a surviving `-inf` makes `M > m` true while
producing `nan` outputs.) -/
theorem c4_minmax_normalize (v : Vol) (m M : F32)
    (hm : minV v = some m) (hM : maxV v = some M) :
    (F32.ltb m M = true →
      statsNormalize v =
        some (vmap3 (fun e => F32.div (F32.sub e m) (F32.sub M m)) v) ∧
      (allFinite v = true → ∀ i z x e,
        volGet (vmap3 (fun e => F32.div (F32.sub e m) (F32.sub M m)) v) i z x = some e →
        F32.inUnit e = true)) ∧
    (F32.ltb m M = false → statsNormalize v = some v) := by
  constructor
  · intro hlt
    constructor
    · simp only [statsNormalize, hm, hM]
      rw [if_pos hlt]
    · intro hfin i z x e he
      rw [volGet_vmap3] at he
      rcases he' : volGet v i z x with _ | e0
      · rw [he'] at he; cases he
      rw [he'] at he
      obtain ⟨qm, rfl, hql⟩ := minV_allFinite v m hfin hm
      obtain ⟨qM, rfl, hqu⟩ := maxV_allFinite v M hfin hM
      have hmem := volGet_mem_flat3 v i z x e0 he'
      obtain ⟨q0, rfl⟩ := allFinite_mem v hfin e0 hmem
      have h1 : qm ≤ q0 := hql q0 hmem
      have h2 : q0 ≤ qM := hqu q0 hmem
      have h3 : qm < qM := by simpa [F32.ltb] using hlt
      have hden : qM - qm ≠ 0 := by
        intro hc
        exact absurd (by linarith : qM ≤ qm) (not_le_of_lt h3)
      have he2 : F32.div (F32.sub (F32.finite q0) (F32.finite qm))
          (F32.sub (F32.finite qM) (F32.finite qm)) = e := by
        simpa using he
      have hcalc : F32.div (F32.sub (F32.finite q0) (F32.finite qm))
          (F32.sub (F32.finite qM) (F32.finite qm)) =
          F32.finite ((q0 - qm) / (qM - qm)) := by
        simp [F32.sub, F32.div, hden]
      have hfe : F32.finite ((q0 - qm) / (qM - qm)) = e := hcalc.symm.trans he2
      subst hfe
      simp only [F32.inUnit, decide_eq_true_eq]
      constructor
      · exact div_nonneg (by linarith) (by linarith)
      · rw [div_le_one (by linarith)]
        linarith
  · intro hlt
    simp only [statsNormalize, hm, hM]
    rw [if_neg (by simp [hlt])]

/-- Counterexample to claim C4: a sentinel-cleaned volume containing
`-inf` and `5.0` has `M = 5.0 > m = -inf`, so normalization runs, but
`(-inf) - (-inf) = nan` and `(5 - (-inf)) / (5 - (-inf)) = inf/inf = nan`:
both outputs are `nan`, which does not lie in `[0, 1]`. -/
theorem c4_cex :
    cleanup [[[F32.negInf, F32.finite 5]]] = [[[F32.negInf, F32.finite 5]]] ∧
    minV [[[F32.negInf, F32.finite 5]]] = some F32.negInf ∧
    maxV [[[F32.negInf, F32.finite 5]]] = some (F32.finite 5) ∧
    F32.ltb F32.negInf (F32.finite 5) = true ∧
    statsNormalize [[[F32.negInf, F32.finite 5]]] = some [[[F32.nan, F32.nan]]] ∧
    F32.inUnit F32.nan = false :=
  of_decide_eq_true (by with_unfolding_all rfl)

/-- Witness for the amended C4 at the concrete volume `[[[0.0, 2.0]]]`. -/
theorem c4_witness :
    (F32.ltb (F32.finite 0) (F32.finite 2) = true →
      statsNormalize [[[F32.finite 0, F32.finite 2]]] =
        some (vmap3 (fun e => F32.div (F32.sub e (F32.finite 0)) (F32.sub (F32.finite 2) (F32.finite 0)))
          [[[F32.finite 0, F32.finite 2]]]) ∧
      (allFinite [[[F32.finite 0, F32.finite 2]]] = true → ∀ i z x e,
        volGet (vmap3 (fun e => F32.div (F32.sub e (F32.finite 0)) (F32.sub (F32.finite 2) (F32.finite 0)))
          [[[F32.finite 0, F32.finite 2]]]) i z x = some e →
        F32.inUnit e = true)) ∧
    (F32.ltb (F32.finite 0) (F32.finite 2) = false →
      statsNormalize [[[F32.finite 0, F32.finite 2]]] = some [[[F32.finite 0, F32.finite 2]]]) :=
  c4_minmax_normalize [[[F32.finite 0, F32.finite 2]]] (F32.finite 0) (F32.finite 2)
    (by decide) (by decide)

/-!
Claim C5 — contrast transform (`log_volume`)
-/

/-- Counterexample to claim C5: an array with more than 3 axes whose last
axis is empty.  `image_np[..., 0]` then raises an `IndexError` (index 0 is
out of bounds for an axis of size 0), so the transform produces no output
at all, while the claim promises an output for every input array. -/
theorem c5_cex : log_volume ⟨[1, 1, 1, 0], []⟩ = none := rfl

/-- Claim C5 (amended): provided the last axis is nonempty whenever the
input has more than 3 axes, `log_volume` succeeds; the output keeps the
input's shape (with the trailing channel axis dropped when there are more
than 3 axes), its data is channel 0 of the input remapped elementwise by
`sqrt(sqrt(x))`, and on non-negative inputs this equals `x ^ (1/4)`, with
`transform(0) = 0` and `transform(1) = 1`. -/
theorem c5_log_volume (a : NDArr) (hlast : 3 < a.shape.length → a.shape.getLastD 0 ≠ 0) :
    ∃ b, log_volume a = some b ∧
      b.shape = (if 3 < a.shape.length then a.shape.dropLast else a.shape) ∧
      b.data = (chanData a).map (fun x => Real.sqrt (Real.sqrt x)) ∧
      (∀ x : ℝ, 0 ≤ x → Real.sqrt (Real.sqrt x) = x ^ ((1 : ℝ) / 4)) ∧
      Real.sqrt (Real.sqrt (0 : ℝ)) = 0 ∧ Real.sqrt (Real.sqrt (1 : ℝ)) = 1 := by
  have hq : ∀ x : ℝ, 0 ≤ x → Real.sqrt (Real.sqrt x) = x ^ ((1 : ℝ) / 4) := by
    intro x hx
    rw [Real.sqrt_eq_rpow, Real.sqrt_eq_rpow, ← Real.rpow_mul hx]
    norm_num
  by_cases h : 3 < a.shape.length
  · refine ⟨⟨a.shape.dropLast,
      ((List.range a.shape.dropLast.prod).map
        (fun k => a.data.getD (k * (a.shape.getLastD 0)) 0)).map
        (fun x => Real.sqrt (Real.sqrt x))⟩, ?_, ?_, ?_, hq, by simp, by simp⟩
    · have h0 : a.shape.getLast?.getD 0 ≠ 0 := by
        simpa [List.getLastD_eq_getLast?] using hlast h
      simp [log_volume, chanSel, h, List.getLastD_eq_getLast?, h0]
    · simp [h]
    · simp [chanData, h]
  · refine ⟨⟨a.shape, a.data.map (fun x => Real.sqrt (Real.sqrt x))⟩, ?_, ?_, ?_, hq,
      by simp, by simp⟩
    · simp [log_volume, h]
    · simp [h]
    · simp [chanData, h]

/-- Witness for the amended C5 at the 1-axis array `⟨[2], [0, 1]⟩`. -/
theorem c5_witness :
    ∃ b, log_volume ⟨[2], [0, 1]⟩ = some b ∧
      b.shape = (if 3 < ([2] : List Nat).length then ([2] : List Nat).dropLast else [2]) ∧
      b.data = (chanData ⟨[2], [0, 1]⟩).map (fun x => Real.sqrt (Real.sqrt x)) ∧
      (∀ x : ℝ, 0 ≤ x → Real.sqrt (Real.sqrt x) = x ^ ((1 : ℝ) / 4)) ∧
      Real.sqrt (Real.sqrt (0 : ℝ)) = 0 ∧ Real.sqrt (Real.sqrt (1 : ℝ)) = 1 :=
  c5_log_volume ⟨[2], [0, 1]⟩ (by decide)

/-!
Claim C9 — output-path mirroring
-/

theorem isPre_append (p q : List String) : isPre p (p ++ q) = true := by
  induction p with
  | nil => rfl
  | cons a t ih => simp [isPre, ih]

theorem pyRelpath_append (inp rel : List String) : pyRelpath (inp ++ rel) inp = rel := by
  rw [pyRelpath, if_pos (isPre_append inp rel), List.drop_left]

/-- Counterexample to claim C9: for an input file `in/a/b/scan.e2e` with
output root `out`, the e2e (and fda) driver writes
`out/a/b/scan/scan.tiff` — an extra per-file directory — not the claimed
`out/a/b/scan.tiff`; the `.vol` driver does write the claimed path. -/
theorem c9_cex :
    e2e_output_path ["in"] ["out"] ["in", "a", "b"] "scan.e2e" =
      (["out", "a", "b", "scan"], ["out", "a", "b", "scan", "scan.tiff"]) ∧
    (["out", "a", "b", "scan", "scan.tiff"] : List String) ≠ ["out", "a", "b", "scan.tiff"] ∧
    vol_output_path ["in"] ["out"] ["in", "a", "b"] "scan.vol" =
      (["out", "a", "b"], ["out", "a", "b", "scan.tiff"]) := by
  refine ⟨by decide, by decide, by decide⟩

/-- Claim C9 (amended): for a file in the walked directory
`input_root ++ rel`, the `.vol` converter creates `output_root ++ rel` and
writes the single artifact `output_root ++ rel ++ [base.tiff]` (base =
name with extension stripped), exactly as claimed; the e2e/fda converters
additionally create a per-file directory named after the base name and
write the artifact inside it: `output_root ++ rel ++ [base, base.tiff]`. -/
theorem c9_output_paths (inp out rel : List String) (file : String) :
    vol_output_path inp out (inp ++ rel) file =
      (out ++ rel, out ++ rel ++ [stripExt file ++ ".tiff"]) ∧
    e2e_output_path inp out (inp ++ rel) file =
      (out ++ rel ++ [stripExt file],
        out ++ rel ++ [stripExt file, stripExt file ++ ".tiff"]) := by
  constructor
  · rw [vol_output_path, pyRelpath_append, List.append_assoc]
  · rw [e2e_output_path, pyRelpath_append]
    simp [List.append_assoc]

/-!
Claim C7 — per-file fault isolation in the batch drivers
-/

theorem volFilesLoop_length (fs : List String → List Byte) (save : List String → Vol → Bool)
    (inp out root : List String) (files : List String) :
    (volFilesLoop fs save inp out root files).length =
      (files.filter (fun f => f.endsWith ".vol")).length := by
  induction files with
  | nil => rfl
  | cons f t ih =>
    by_cases h : f.endsWith ".vol" <;> simp [volFilesLoop, List.filter_cons, h, ih]

theorem process_vol_files_length (fs : List String → List Byte)
    (save : List String → Vol → Bool) (inp out : List String)
    (walk : List (List String × List String)) :
    (process_vol_files fs save inp out walk).length = matchedCount ".vol" walk := by
  induction walk with
  | nil => rfl
  | cons e t ih =>
    simp [process_vol_files, matchedCount, volFilesLoop_length, List.length_append, ih]

theorem e2eFilesLoop_ok {σ τ : Type} (readerInit : List String → Except Unit (OctReader σ))
    (stackF : List σ → Option τ) (save : List String → τ → Bool)
    (inp out root : List String) (files : List String)
    (hok : ∀ f ∈ files, f.endsWith ".e2e" = true → (readerInit (root ++ [f])).isOk = true) :
    ∃ outs, e2eFilesLoop readerInit stackF save inp out root files = Except.ok outs ∧
      outs.length = (files.filter (fun f => f.endsWith ".e2e")).length := by
  induction files with
  | nil => exact ⟨[], rfl, rfl⟩
  | cons f t ih =>
    obtain ⟨outs, houts, hlen⟩ := ih (fun g hg hend => hok g (by simp [hg]) hend)
    by_cases h : f.endsWith ".e2e"
    · have hiok := hok f (by simp) h
      rcases hri : readerInit (root ++ [f]) with err | img
      · rw [hri] at hiok
        simp [Except.isOk, Except.toBool] at hiok
      · refine ⟨e2eFileStep stackF save inp out root f img :: outs, ?_, ?_⟩
        · simp [e2eFilesLoop, h, hri, houts]
        · simp [List.filter_cons, h, hlen]
    · refine ⟨outs, by simp [e2eFilesLoop, h, houts], by simp [List.filter_cons, h, hlen]⟩

theorem process_e2e_files_ok {σ τ : Type} (readerInit : List String → Except Unit (OctReader σ))
    (stackF : List σ → Option τ) (save : List String → τ → Bool)
    (inp out : List String) (walk : List (List String × List String))
    (hok : ∀ entry ∈ walk, ∀ f ∈ entry.2, f.endsWith ".e2e" = true →
      (readerInit (entry.1 ++ [f])).isOk = true) :
    ∃ outs, process_e2e_files readerInit stackF save inp out walk = Except.ok outs ∧
      outs.length = matchedCount ".e2e" walk := by
  induction walk with
  | nil => exact ⟨[], rfl, rfl⟩
  | cons e t ih =>
    obtain ⟨outs1, h1, hl1⟩ := e2eFilesLoop_ok readerInit stackF save inp out e.1 e.2
      (fun f hf hend => hok e (by simp) f hf hend)
    obtain ⟨outs2, h2, hl2⟩ := ih (fun entry he f hf hend => hok entry (by simp [he]) f hf hend)
    refine ⟨outs1 ++ outs2, ?_, ?_⟩
    · simp [process_e2e_files, h1, h2]
      rfl
    · simp [matchedCount, List.length_append, hl1, hl2]

theorem fdaFilesLoop_ok {σ τ : Type} (readerInit : List String → Except Unit (OctReader σ))
    (stackF : List σ → Option τ) (save : List String → τ → Bool)
    (inp out root : List String) (files : List String)
    (hok : ∀ f ∈ files, f.endsWith ".fda" = true → (readerInit (root ++ [f])).isOk = true) :
    ∃ outs, fdaFilesLoop readerInit stackF save inp out root files = Except.ok outs ∧
      outs.length = (files.filter (fun f => f.endsWith ".fda")).length := by
  induction files with
  | nil => exact ⟨[], rfl, rfl⟩
  | cons f t ih =>
    obtain ⟨outs, houts, hlen⟩ := ih (fun g hg hend => hok g (by simp [hg]) hend)
    by_cases h : f.endsWith ".fda"
    · have hiok := hok f (by simp) h
      rcases hri : readerInit (root ++ [f]) with err | img
      · rw [hri] at hiok
        simp [Except.isOk, Except.toBool] at hiok
      · refine ⟨e2eFileStep stackF save inp out root f img :: outs, ?_, ?_⟩
        · simp [fdaFilesLoop, h, hri, houts]
        · simp [List.filter_cons, h, hlen]
    · refine ⟨outs, by simp [fdaFilesLoop, h, houts], by simp [List.filter_cons, h, hlen]⟩

theorem process_fda_files_ok {σ τ : Type} (readerInit : List String → Except Unit (OctReader σ))
    (stackF : List σ → Option τ) (save : List String → τ → Bool)
    (inp out : List String) (walk : List (List String × List String))
    (hok : ∀ entry ∈ walk, ∀ f ∈ entry.2, f.endsWith ".fda" = true →
      (readerInit (entry.1 ++ [f])).isOk = true) :
    ∃ outs, process_fda_files readerInit stackF save inp out walk = Except.ok outs ∧
      outs.length = matchedCount ".fda" walk := by
  induction walk with
  | nil => exact ⟨[], rfl, rfl⟩
  | cons e t ih =>
    obtain ⟨outs1, h1, hl1⟩ := fdaFilesLoop_ok readerInit stackF save inp out e.1 e.2
      (fun f hf hend => hok e (by simp) f hf hend)
    obtain ⟨outs2, h2, hl2⟩ := ih (fun entry he f hf hend => hok entry (by simp [he]) f hf hend)
    refine ⟨outs1 ++ outs2, ?_, ?_⟩
    · simp [process_fda_files, h1, h2]
      rfl
    · simp [matchedCount, List.length_append, hl1, hl2]

/-- Counterexample to claim C7: in the e2e driver, `img = E2E(filepath)`
runs BEFORE the `try` block, so a failure while constructing the reader
for `a.e2e` escapes the per-file handler and aborts the whole batch —
`b.e2e`, listed right after it, is never attempted.  (The fda driver has
the same structure; only the `.vol` driver is fully isolated.) -/
theorem c7_cex :
    process_e2e_files
      (fun p => if p = ["a.e2e"] then Except.error () else Except.ok ⟨1, fun _ => some (0 : Nat)⟩)
      (fun l : List Nat => some l) (fun _ _ => true) [] []
      [([], ["a.e2e", "b.e2e"])] = Except.error ["a.e2e"] := by
  with_unfolding_all rfl

/-- Claim C7 (amended): the `.vol` driver attempts every matching file
and yields exactly one (success-or-failure) outcome per file — no single
file's failure aborts the batch; the e2e and fda drivers do so only as
long as the reader constructor (which runs outside the `try` block)
succeeds on every matching file — failures during slice reading,
stacking, transforming or writing are still isolated per file. -/
theorem c7_batch_isolation :
    (∀ (fs : List String → List Byte) (save : List String → Vol → Bool)
       (inp out : List String) (walk : List (List String × List String)),
       (process_vol_files fs save inp out walk).length = matchedCount ".vol" walk) ∧
    (∀ (σ τ : Type) (readerInit : List String → Except Unit (OctReader σ))
       (stackF : List σ → Option τ) (save : List String → τ → Bool)
       (inp out : List String) (walk : List (List String × List String)),
       (∀ entry ∈ walk, ∀ f ∈ entry.2, f.endsWith ".e2e" = true →
         (readerInit (entry.1 ++ [f])).isOk = true) →
       ∃ outs, process_e2e_files readerInit stackF save inp out walk = Except.ok outs ∧
         outs.length = matchedCount ".e2e" walk) ∧
    (∀ (σ τ : Type) (readerInit : List String → Except Unit (OctReader σ))
       (stackF : List σ → Option τ) (save : List String → τ → Bool)
       (inp out : List String) (walk : List (List String × List String)),
       (∀ entry ∈ walk, ∀ f ∈ entry.2, f.endsWith ".fda" = true →
         (readerInit (entry.1 ++ [f])).isOk = true) →
       ∃ outs, process_fda_files readerInit stackF save inp out walk = Except.ok outs ∧
         outs.length = matchedCount ".fda" walk) :=
  ⟨process_vol_files_length,
   fun _ _ readerInit stackF save inp out walk hok =>
     process_e2e_files_ok readerInit stackF save inp out walk hok,
   fun _ _ readerInit stackF save inp out walk hok =>
     process_fda_files_ok readerInit stackF save inp out walk hok⟩

/-- Witness for the amended C7: a concrete two-file walk where the reader
constructor succeeds, applied through the e2e conjunct. -/
theorem c7_witness :
    ∃ outs, process_e2e_files (fun _ => Except.ok ⟨0, fun _ => (none : Option Nat)⟩)
      (fun l : List Nat => some l) (fun _ _ => true) [] []
      [([], ["a.e2e", "b.txt"])] = Except.ok outs ∧
      outs.length = matchedCount ".e2e" [([], ["a.e2e", "b.txt"])] :=
  c7_batch_isolation.2.1 Nat (List Nat)
    (fun _ => Except.ok ⟨0, fun _ => (none : Option Nat)⟩)
    (fun l : List Nat => some l) (fun _ _ => true) [] []
    [([], ["a.e2e", "b.txt"])] (fun _ _ _ _ _ => rfl)

/-!
Claim C8 — file-handle release
-/

set_option maxRecDepth 8000 in
/-- Claim C8 (code bug): `read_vol_file` has no `try`/`finally` (and does
not use `with open(...)`), so `rawfile.close()` at line 51 runs only when
everything before it succeeds.  On the empty (hence malformed) input the
decoder fails before line 51 and the traced close flag stays `false` —
the byte source is not explicitly closed on that failure path — whereas
on the well-formed `tinyGood` input the decode succeeds and the flag is
`true`. -/
theorem c8_close_flag :
    read_vol_file_c [] = (none, false) ∧
    read_vol_file_c tinyGood = (some [[[F32.finite 1]]], true) :=
  ⟨by decide, of_decide_eq_true (by with_unfolding_all rfl)⟩

/-!
Claim C1 — slice-record layout and assembly order
-/

theorem readSliceBlock_eq (f : List Byte) (h : VolHeader)
    (hX : 0 ≤ h.sizeX) (hZ : 0 ≤ h.sizeZ) (hH : 0 ≤ h.bscanHdrSize) (hD : 0 ≤ dataStart h)
    (i : Nat)
    (hrec : (dataStart h).toNat + i * (bsBlkSize h).toNat + (bsBlkSize h).toNat ≤ f.length) :
    readSliceBlock f h i = some (sliceMat f h i) := by
  have hXe : h.sizeX = (h.sizeX.toNat : Int) := (Int.toNat_of_nonneg hX).symm
  have hZe : h.sizeZ = (h.sizeZ.toNat : Int) := (Int.toNat_of_nonneg hZ).symm
  have hHe : h.bscanHdrSize = (h.bscanHdrSize.toNat : Int) := (Int.toNat_of_nonneg hH).symm
  have hDe : dataStart h = ((dataStart h).toNat : Int) := (Int.toNat_of_nonneg hD).symm
  have hBe : bsBlkSize h =
      ((h.bscanHdrSize.toNat + h.sizeX.toNat * h.sizeZ.toNat * 4 : Nat) : Int) := by
    conv_lhs => rw [bsBlkSize, hHe, hXe, hZe]
    push_cast
    ring
  have hB : (bsBlkSize h).toNat =
      h.bscanHdrSize.toNat + h.sizeX.toNat * h.sizeZ.toNat * 4 := by
    rw [hBe]
    exact Int.toNat_natCast _
  have hoff : dataStart h + (i : Int) * bsBlkSize h =
      (((dataStart h).toNat + i * (bsBlkSize h).toNat : Nat) : Int) := by
    conv_lhs => rw [hDe]
    conv_lhs => rw [show bsBlkSize h = (((bsBlkSize h).toNat : Nat) : Int) from by
      rw [hBe, Int.toNat_natCast]]
    push_cast
    ring
  have hseek : seekRead f (dataStart h + (i : Int) * bsBlkSize h) (bsBlkSize h) =
      some ((f.drop ((dataStart h).toNat + i * (bsBlkSize h).toNat)).take (bsBlkSize h).toNat) := by
    rw [seekRead, if_neg (by rw [hoff]; exact not_lt_of_le (Int.natCast_nonneg _)),
      if_neg (by rw [hBe]; exact not_lt_of_le (Int.natCast_nonneg _))]
    rw [hoff, Int.toNat_natCast]
  -- abbreviations (all products become atoms for omega)
  set X := h.sizeX.toNat with hXdef
  set Z := h.sizeZ.toNat with hZdef
  set H := h.bscanHdrSize.toNat with hHdef
  set D := (dataStart h).toNat with hDdef
  set B := (bsBlkSize h).toNat with hBdef
  set P := X * Z with hPdef
  set Q := Z * X with hQdef
  set o := D + i * B with hodef
  have hPQ : P = Q := by rw [hPdef, hQdef]; ring
  have hbslen : ((f.drop o).take B).length = B := by
    simp only [List.length_take, List.length_drop]
    omega
  have hHB : H ≤ B := by rw [hB]; exact Nat.le_add_right _ _
  have hhi : h.sizeX * h.sizeZ * 4 + h.bscanHdrSize = ((P * 4 + H : Nat) : Int) := by
    conv_lhs => rw [hXe, hZe, hHe]
    rw [hPdef]
    push_cast
    ring
  have hPB : P * 4 + H = B := by rw [hB, hPdef]; ring
  have hpay : pySlice ((f.drop o).take B) (h.bscanHdrSize)
      (h.sizeX * h.sizeZ * 4 + h.bscanHdrSize) = ((f.drop o).take B).drop H := by
    rw [pySlice, hbslen, hhi, hHe, pyIdx_natCast, pyIdx_natCast]
    have e1 : min H B = H := min_eq_left hHB
    have e2 : min (P * 4 + H) B = B := by omega
    rw [e1, e2, List.take_take, Nat.min_self]
  have hpayf : ((f.drop o).take B).drop H = (f.drop (o + H)).take (P * 4) := by
    have e2 : B - H = P * 4 := by omega
    rw [List.drop_take, List.drop_drop, e2]
  have hplen : ((f.drop (o + H)).take (P * 4)).length = P * 4 := by
    simp only [List.length_take, List.length_drop]
    omega
  have hfl : unpackFloats Q ((f.drop (o + H)).take (P * 4)) =
      some ((List.range Q).map
        (fun j => decodeF32le ((((f.drop (o + H)).take (P * 4)).drop (4 * j)).take 4))) := by
    rw [unpackFloats, if_pos (by rw [hplen]; omega)]
  have helem : ∀ j, j < Q →
      (((f.drop (o + H)).take (P * 4)).drop (4 * j)).take 4 =
        (f.drop (o + H + 4 * j)).take 4 := by
    intro j hj
    have e2 : min 4 (P * 4 - 4 * j) = 4 := by omega
    rw [List.drop_take, List.drop_drop, List.take_take, e2]
  rw [readSliceBlock]
  rw [hseek]
  simp only [Option.pure_def, Option.bind_eq_bind, Option.some_bind]
  have hQfold : h.sizeZ.toNat * h.sizeX.toNat = Q := rfl
  rw [hQfold, hpay, hpayf, hfl]
  simp only [Option.some_bind]
  congr 1
  have hZfold : h.sizeZ.toNat = Z := rfl
  have hXfold : h.sizeX.toNat = X := rfl
  rw [hZfold, hXfold]
  rw [reshape2, sliceMat]
  apply List.map_eq_map_iff.mpr
  intro z hz
  have hzlt : z < Z := List.mem_range.mp hz
  apply List.ext_get?
  intro x
  by_cases hx : x < X
  · have hidx : z * X + x < Q := by
      have h1 : z * X + x < (z + 1) * X := by
        rw [Nat.succ_mul]
        omega
      have h2 : (z + 1) * X ≤ Z * X := Nat.mul_le_mul_right X hzlt
      rw [hQdef]
      omega
    rw [get?_take_ext, if_pos hx, List.get?_drop, List.get?_map, List.get?_map,
      List.get?_range hx, List.get?_range hidx]
    simp only [Option.map_some']
    rw [helem (z * X + x) hidx]
  · rw [get?_take_ext, if_neg hx, List.get?_map,
      List.get?_len_le (by rw [List.length_range]; exact le_of_not_lt hx)]
    rfl

theorem assembleLoop_eq (f : List Byte) (h : VolHeader)
    (hX : 0 ≤ h.sizeX) (hZ : 0 ≤ h.sizeZ) (hN : 0 ≤ h.numBscans)
    (hH : 0 ≤ h.bscanHdrSize) (hD : 0 ≤ dataStart h)
    (hlen : (dataStart h).toNat + h.numBscans.toNat * (bsBlkSize h).toNat ≤ f.length) :
    assembleLoop f h = some ((List.range h.numBscans.toNat).map (sliceMat f h)) := by
  set N := h.numBscans.toNat with hNdef
  set B := (bsBlkSize h).toNat with hBdef
  set D := (dataStart h).toNat with hDdef
  set Z := h.sizeZ.toNat with hZdef
  set X := h.sizeX.toNat with hXdef
  set d := List.replicate Z (List.replicate X (F32.finite (-1))) with hddef
  have hrec : ∀ i, i < N → D + i * B + B ≤ f.length := by
    intro i hi
    have h1 : (i + 1) * B ≤ N * B := Nat.mul_le_mul_right B hi
    have h2 : D + i * B + B = D + (i + 1) * B := by
      rw [Nat.succ_mul, Nat.add_assoc]
    rw [h2]
    exact le_trans (Nat.add_le_add_left h1 D) hlen
  have hones : ones3 h.numBscans h.sizeZ h.sizeX = some (List.replicate N d) := by
    rw [ones3, if_neg (by push_neg; exact ⟨hN, hZ, hX⟩), hddef]
  have key : ∀ k, k ≤ N →
      (List.range k).foldlM
        (fun v i => do
          let s ← readSliceBlock f h i
          pure (v.set i s))
        (List.replicate N d) =
      some ((List.range N).map (fun j => if j < k then sliceMat f h j else d)) := by
    intro k
    induction k with
    | zero =>
      intro _
      simp only [List.range_zero, List.foldlM_nil]
      have : (List.range N).map (fun j => if j < 0 then sliceMat f h j else d) =
          (List.range N).map (fun _ => d) := by
        apply List.map_eq_map_iff.mpr
        intro j _
        simp
      rw [this]
      simp [List.map_const', List.length_range]
    | succ k ih =>
      intro hk1
      have hkN : k < N := hk1
      have hkle : k ≤ N := le_of_lt hkN
      rw [List.range_succ, List.foldlM_append, ih hkle]
      have hsl := readSliceBlock_eq f h hX hZ hH hD k (hrec k hkN)
      simp only [Option.pure_def, Option.bind_eq_bind, Option.some_bind,
        List.foldlM_cons, List.foldlM_nil, hsl]
      congr 1
      apply List.ext_get?
      intro j
      by_cases hj : j = k
      · rw [hj]
        rw [List.get?_set_eq_of_lt _ (by simpa using hkN)]
        rw [List.get?_map, List.get?_range hkN]
        simp
      · rw [List.get?_set_ne _ _ (fun hc => hj hc.symm)]
        by_cases hjN : j < N
        · rw [List.get?_map, List.get?_map, List.get?_range hjN]
          have hiff : j < k ↔ j < k + 1 := by
            constructor
            · omega
            · omega
          simp only [Option.map_some']
          exact congrArg some (if_congr hiff rfl rfl)
        · rw [List.get?_len_le (by simpa using le_of_not_lt hjN),
            List.get?_len_le (by simpa using le_of_not_lt hjN)]
  have hfinal := key N (le_refl N)
  simp only [Option.pure_def, Option.bind_eq_bind] at hfinal
  rw [assembleLoop, hones]
  simp only [Option.pure_def, Option.bind_eq_bind, Option.some_bind]
  rw [hfinal]
  congr 1
  apply List.map_eq_map_iff.mpr
  intro j hj
  rw [if_pos (List.mem_range.mp hj)]

/-- Claim C1: for a raw file whose header declares non-negative geometry
and which contains `numBscans` complete slice records (hypothesis
`hlen`), the assembly loop (lines 43-49: buffer pre-filled with `-1.0`,
then one `seek`/`read`/`unpack`/`reshape` per slice) succeeds, produces
`numBscans` rows in file order, and element `(i, z, x)` is exactly the
little-endian float32 whose 4 bytes start at offset
`2048 + sizeXSlo*sizeYSlo + i*(bscanHeaderSize + sizeX*sizeZ*4) +
bscanHeaderSize + 4*(z*sizeX + x)` — i.e. record `i`'s payload with the
first `bscanHeaderSize` bytes skipped, reshaped row-major to
`[sizeZ, sizeX]`.  The `bscanHeaderSize ≥ 52` requirement needed by the
segmentation-count parse (line 41) lives outside this loop; see C10. -/
theorem c1_assembler_layout (f : List Byte) (h : VolHeader)
    (hX : 0 ≤ h.sizeX) (hZ : 0 ≤ h.sizeZ) (hN : 0 ≤ h.numBscans)
    (hH : 0 ≤ h.bscanHdrSize) (hD : 0 ≤ dataStart h)
    (hlen : (dataStart h).toNat + h.numBscans.toNat * (bsBlkSize h).toNat ≤ f.length) :
    ∃ vol, assembleLoop f h = some vol ∧ vol.length = h.numBscans.toNat ∧
      ∀ i, i < h.numBscans.toNat → ∀ z, z < h.sizeZ.toNat → ∀ x, x < h.sizeX.toNat →
        volGet vol i z x = some (decodeF32le ((f.drop ((dataStart h).toNat +
          i * (bsBlkSize h).toNat + h.bscanHdrSize.toNat +
          4 * (z * h.sizeX.toNat + x))).take 4)) := by
  refine ⟨_, assembleLoop_eq f h hX hZ hN hH hD hlen, by simp, ?_⟩
  intro i hi z hz x hx
  rw [volGet, List.get?_map, List.get?_range hi]
  simp only [Option.map_some', Option.some_bind]
  rw [sliceMat, List.get?_map, List.get?_range hz]
  simp only [Option.map_some', Option.some_bind]
  rw [List.get?_map, List.get?_range hx]
  simp only [Option.map_some']

set_option maxRecDepth 8000 in
/-- Witness for C1 at the concrete 160-byte file `tinyGood`. -/
theorem c1_witness :
    ∃ vol, assembleLoop tinyGood tinyHeader = some vol ∧
      vol.length = tinyHeader.numBscans.toNat ∧
      ∀ i, i < tinyHeader.numBscans.toNat → ∀ z, z < tinyHeader.sizeZ.toNat →
        ∀ x, x < tinyHeader.sizeX.toNat →
        volGet vol i z x = some (decodeF32le ((tinyGood.drop ((dataStart tinyHeader).toNat +
          i * (bsBlkSize tinyHeader).toNat + tinyHeader.bscanHdrSize.toNat +
          4 * (z * tinyHeader.sizeX.toNat + x))).take 4)) :=
  c1_assembler_layout tinyGood tinyHeader (by decide) (by decide) (by decide)
    (by decide) (by decide) (by decide)

/-!
Claim C10 — the segmentation count is parsed but never used
-/

theorem drop_eq_of_agree {α : Type} (f1 f2 : List α) (b : Nat)
    (hag : ∀ j, b ≤ j → f1.get? j = f2.get? j) (n : Nat) (hn : b ≤ n) :
    f1.drop n = f2.drop n := by
  apply List.ext_get?
  intro j
  rw [List.get?_drop, List.get?_drop]
  exact hag (n + j) (by omega)

theorem unpack_i_eq_none_iff (s : List Byte) : unpack_i s = none ↔ s.length ≠ 4 := by
  rw [unpack_i]
  by_cases hs : s.length = 4 <;> simp [hs]

theorem readSliceBlock_congr (f1 f2 : List Byte) (h : VolHeader)
    (hX : 0 ≤ h.sizeX) (hZ : 0 ≤ h.sizeZ) (hhdr : 52 ≤ h.bscanHdrSize)
    (hD0 : 0 ≤ dataStart h) (hlen : f1.length = f2.length)
    (haghi : ∀ j, (dataStart h).toNat + 52 ≤ j → f1.get? j = f2.get? j)
    (i : Nat) :
    readSliceBlock f1 h i = readSliceBlock f2 h i := by
  have hH0 : 0 ≤ h.bscanHdrSize := by linarith
  have hXZ : (0 : Int) ≤ h.sizeX * h.sizeZ * 4 :=
    mul_nonneg (mul_nonneg hX hZ) (by norm_num)
  have hblk0 : 0 ≤ bsBlkSize h := by rw [bsBlkSize]; linarith
  have hiblk : 0 ≤ (i : Int) * bsBlkSize h := mul_nonneg (Int.natCast_nonneg i) hblk0
  have hoff0 : 0 ≤ dataStart h + i * bsBlkSize h := by linarith
  have hseek : ∀ g : List Byte, seekRead g (dataStart h + i * bsBlkSize h) (bsBlkSize h) =
      some ((g.drop (dataStart h + i * bsBlkSize h).toNat).take (bsBlkSize h).toNat) := by
    intro g
    rw [seekRead, if_neg (not_lt_of_le hoff0), if_neg (not_lt_of_le hblk0)]
  set T := (dataStart h + i * bsBlkSize h).toNat with hTdef
  set U := (bsBlkSize h).toNat with hUdef
  have hTA : (dataStart h).toNat + 52 ≤ T + h.bscanHdrSize.toNat := by
    have h2 : (dataStart h).toNat ≤ T := Int.toNat_le_toNat (by linarith)
    have h3 : 52 ≤ h.bscanHdrSize.toNat := by omega
    omega
  have hHe : h.bscanHdrSize = (h.bscanHdrSize.toNat : Int) := (Int.toNat_of_nonneg hH0).symm
  set L := ((f1.drop T).take U).length with hLdef
  have hlenb : ((f2.drop T).take U).length = L := by
    rw [hLdef]
    simp [List.length_take, List.length_drop, hlen]
  have hlo : pyIdx L h.bscanHdrSize = min h.bscanHdrSize.toNat L := by
    conv_lhs => rw [hHe]
    exact pyIdx_natCast L h.bscanHdrSize.toNat
  have hpayeq : pySlice ((f1.drop T).take U) h.bscanHdrSize
      (h.sizeX * h.sizeZ * 4 + h.bscanHdrSize) =
      pySlice ((f2.drop T).take U) h.bscanHdrSize
      (h.sizeX * h.sizeZ * 4 + h.bscanHdrSize) := by
    apply List.ext_get?
    intro j
    rw [pySlice, pySlice, hlenb, ← hLdef]
    have hhiL := pyIdx_le_len L (h.sizeX * h.sizeZ * 4 + h.bscanHdrSize)
    rw [List.get?_drop, List.get?_drop,
      get?_take_ext ((f1.drop T).take U) (pyIdx L (h.sizeX * h.sizeZ * 4 + h.bscanHdrSize)),
      get?_take_ext ((f2.drop T).take U) (pyIdx L (h.sizeX * h.sizeZ * 4 + h.bscanHdrSize))]
    by_cases hcond : pyIdx L h.bscanHdrSize + j < pyIdx L (h.sizeX * h.sizeZ * 4 + h.bscanHdrSize)
    · rw [if_pos hcond, if_pos hcond, get?_take_ext, get?_take_ext]
      by_cases hU : pyIdx L h.bscanHdrSize + j < U
      · rw [if_pos hU, if_pos hU, List.get?_drop, List.get?_drop]
        apply haghi
        have hloH : pyIdx L h.bscanHdrSize = h.bscanHdrSize.toNat := by
          rw [hlo]
          omega
        omega
      · rw [if_neg hU, if_neg hU]
    · rw [if_neg hcond, if_neg hcond]
  rw [readSliceBlock, readSliceBlock, hseek f1, hseek f2]
  simp only [Option.pure_def, Option.bind_eq_bind, Option.some_bind]
  rw [hpayeq]

theorem assembleLoop_congr (f1 f2 : List Byte) (h : VolHeader)
    (hhdr : 52 ≤ h.bscanHdrSize) (hD0 : 0 ≤ dataStart h) (hlen : f1.length = f2.length)
    (haghi : ∀ j, (dataStart h).toNat + 52 ≤ j → f1.get? j = f2.get? j) :
    assembleLoop f1 h = assembleLoop f2 h := by
  rw [assembleLoop, assembleLoop]
  cases hon : ones3 h.numBscans h.sizeZ h.sizeX with
  | none => rfl
  | some init =>
    have hcond : ¬(h.numBscans < 0 ∨ h.sizeZ < 0 ∨ h.sizeX < 0) := by
      intro hc
      rw [ones3, if_pos hc] at hon
      cases hon
    push_neg at hcond
    obtain ⟨_, hZ, hX⟩ := hcond
    have hfuneq : (fun (v : Vol) (i : Nat) => do
          let s ← readSliceBlock f1 h i
          pure (v.set i s)) =
        (fun (v : Vol) (i : Nat) => do
          let s ← readSliceBlock f2 h i
          pure (v.set i s)) := by
      funext v i
      rw [readSliceBlock_congr f1 f2 h hX hZ hhdr hD0 hlen haghi i]
    rw [hfuneq]

theorem leI32_congr (f1 f2 : List Byte) (a : Nat)
    (hag : ∀ j, j < a + 4 → f1.get? j = f2.get? j) :
    leI32 f1 a = leI32 f2 a := by
  have hg : ∀ p, p < a + 4 → f1.getD p (0 : Byte) = f2.getD p 0 := by
    intro p hp
    have : f1.get? p = f2.get? p := hag p hp
    show (f1.get? p).getD 0 = (f2.get? p).getD 0
    rw [this]
  rw [leI32, leI32, hg a (by omega), hg (a + 1) (by omega), hg (a + 2) (by omega),
    hg (a + 3) (by omega)]

/-- Claim C10: two raw files that agree everywhere except on the 4 bytes
of the first slice record's segmentation-count field (file offsets
`dataStart + 48 .. dataStart + 51`) decode to the same volume: `NumSeg`
is parsed (line 41) and then never consumed.  The hypotheses state the
well-formedness the claim presupposes: the first file parses, the data
region lies past the parsed header fields (`104 ≤ dataStart`, true of any
real file, whose data region starts at `2048 + sloImageSize ≥ 2048`), and
the record header actually contains the field (`52 ≤ bscanHeaderSize`). -/
theorem c10_numseg_never_used (f1 f2 : List Byte) (h : VolHeader)
    (hp : headerParse f1 = some h)
    (hDlo : 104 ≤ dataStart h)
    (hhdr : 52 ≤ h.bscanHdrSize)
    (hlen : f1.length = f2.length)
    (hag : ∀ j : Nat, j < (dataStart h).toNat + 48 ∨ (dataStart h).toNat + 52 ≤ j →
      f1.get? j = f2.get? j) :
    read_vol_file f1 = read_vol_file f2 := by
  have hD0 : 0 ≤ dataStart h := by linarith
  have hA104 : 104 ≤ (dataStart h).toNat := by omega
  have haglo : ∀ j, j < (dataStart h).toNat + 48 → f1.get? j = f2.get? j :=
    fun j hj => hag j (Or.inl hj)
  have haghi : ∀ j, (dataStart h).toNat + 52 ≤ j → f1.get? j = f2.get? j :=
    fun j hj => hag j (Or.inr hj)
  have h104 : 104 ≤ f1.length := by
    by_contra hc
    push_neg at hc
    rw [headerParse_none_of_short f1 hc] at hp
    cases hp
  have h104b : 104 ≤ f2.length := by omega
  have hp2 : headerParse f2 = some h := by
    have e1 := headerParse_of_long f1 h104
    have e2 := headerParse_of_long f2 h104b
    rw [hp] at e1
    have hfield : ∀ a : Nat, a + 4 ≤ 104 → leI32 f2 a = leI32 f1 a := by
      intro a ha
      exact (leI32_congr f1 f2 a (fun j hj => haglo j (by omega))).symm
    rw [e2, hfield 12 (by norm_num), hfield 16 (by norm_num), hfield 20 (by norm_num),
      hfield 48 (by norm_num), hfield 52 (by norm_num), hfield 100 (by norm_num)]
    exact e1.symm
  suffices hpre : preClose f1 = preClose f2 by
    rw [read_vol_file, read_vol_file, read_vol_file_c, read_vol_file_c, hpre]
  rw [preClose, preClose, hp, hp2]
  simp only [Option.pure_def, Option.bind_eq_bind, Option.some_bind]
  have hs : ∀ g : List Byte, seekRead g (dataStart h) (bsBlkSize h) =
      some (if bsBlkSize h < 0 then g.drop (dataStart h).toNat
        else (g.drop (dataStart h).toNat).take (bsBlkSize h).toNat) := by
    intro g
    rw [seekRead, if_neg (not_lt_of_le hD0)]
  rw [hs f1, hs f2]
  simp only [Option.some_bind]
  have hb0len : (if bsBlkSize h < 0 then f1.drop (dataStart h).toNat
      else (f1.drop (dataStart h).toNat).take (bsBlkSize h).toNat).length =
      (if bsBlkSize h < 0 then f2.drop (dataStart h).toNat
      else (f2.drop (dataStart h).toNat).take (bsBlkSize h).toNat).length := by
    by_cases hbn : bsBlkSize h < 0 <;>
      simp [hbn, List.length_take, List.length_drop, hlen]
  have hseglen : (pySlice (pySlice (if bsBlkSize h < 0 then f1.drop (dataStart h).toNat
      else (f1.drop (dataStart h).toNat).take (bsBlkSize h).toNat) 0 h.bscanHdrSize) 48 52).length =
      (pySlice (pySlice (if bsBlkSize h < 0 then f2.drop (dataStart h).toNat
      else (f2.drop (dataStart h).toNat).take (bsBlkSize h).toNat) 0 h.bscanHdrSize) 48 52).length := by
    rw [pySlice_length, pySlice_length, pySlice_length, pySlice_length, hb0len]
  have hasm := assembleLoop_congr f1 f2 h hhdr hD0 hlen haghi
  cases hseg1 : unpack_i (pySlice (pySlice (if bsBlkSize h < 0 then f1.drop (dataStart h).toNat
      else (f1.drop (dataStart h).toNat).take (bsBlkSize h).toNat) 0 h.bscanHdrSize) 48 52) with
  | none =>
    have hseg2 : unpack_i (pySlice (pySlice (if bsBlkSize h < 0 then f2.drop (dataStart h).toNat
        else (f2.drop (dataStart h).toNat).take (bsBlkSize h).toNat) 0 h.bscanHdrSize) 48 52) = none := by
      rw [unpack_i_eq_none_iff] at hseg1 ⊢
      omega
    rw [hseg2]
    rfl
  | some n1 =>
    have hseg2 : ∃ n2, unpack_i (pySlice (pySlice (if bsBlkSize h < 0 then f2.drop (dataStart h).toNat
        else (f2.drop (dataStart h).toNat).take (bsBlkSize h).toNat) 0 h.bscanHdrSize) 48 52) = some n2 := by
      cases hx : unpack_i (pySlice (pySlice (if bsBlkSize h < 0 then f2.drop (dataStart h).toNat
          else (f2.drop (dataStart h).toNat).take (bsBlkSize h).toNat) 0 h.bscanHdrSize) 48 52) with
      | none =>
        rw [unpack_i_eq_none_iff] at hx
        have : unpack_i (pySlice (pySlice (if bsBlkSize h < 0 then f1.drop (dataStart h).toNat
            else (f1.drop (dataStart h).toNat).take (bsBlkSize h).toNat) 0 h.bscanHdrSize) 48 52) = none := by
          rw [unpack_i_eq_none_iff]
          omega
        rw [this] at hseg1
        cases hseg1
      | some n2 => exact ⟨n2, rfl⟩
    obtain ⟨n2, hseg2⟩ := hseg2
    rw [hseg2]
    simp only [Option.some_bind]
    exact hasm

set_option maxRecDepth 8000 in
/-- Witness for C10: `tinyGood` and `tinySeg` differ exactly in the first
record's segmentation-count field (byte 152) and decode identically. -/
theorem c10_witness : read_vol_file tinyGood = read_vol_file tinySeg :=
  c10_numseg_never_used tinyGood tinySeg tinyHeader (by decide) (by decide) (by decide)
    (by rw [tinySeg, List.length_set])
    (fun j hj => by
      rw [tinySeg]
      refine (List.get?_set_ne _ _ ?_).symm
      have hA : (dataStart tinyHeader).toNat = 104 := by decide
      rw [hA] at hj
      omega)
